import Mathlib

/-!
Verification of the installed-package discovery and caching engine of the
Pailer repository (file src/src-tauri/src/commands/installed.rs) against its
natural-language specification.  The Rust code is shallowly embedded: the
filesystem is a record of query functions, paths are lists of components,
machine integers are natural numbers, and fallible Rust functions return
Except or Option.
-/

namespace Pailer

/-- Filesystem paths, modelled as lists of path components. -/
abbrev FsPath := List String

/-- Path.join with a single extra component. -/
def pjoin (p : FsPath) (s : String) : FsPath := p ++ [s]

/-- Path.file_name: the last component, when there is one. -/
def fileName (p : FsPath) : Option String := p.getLast?

/-- Modelled from the spec: PackageManifest lives in the crate models module,
which is absent from the provided sources; per the spec it carries the
manifest.json version (string) and description (optional string). -/
structure PackageManifest where
  version : String
  description : Option String
  deriving DecidableEq

/-- Modelled from the spec: InstallManifest (crate models module, absent from
the provided sources); install.json has an optional bucket string, absence
meaning a custom or unknown installation. -/
structure InstallManifest where
  bucket : Option String
  deriving DecidableEq

/-- Modelled from the spec: the fields of ScoopPackage that the scan in
installed.rs assigns (crate models module absent from the provided sources). -/
structure ScoopPackage where
  name : String
  version : String
  source : String
  updated : String
  is_installed : Bool
  info : String
  is_versioned_install : Bool
  deriving DecidableEq

/-- Abstract outcome of serde_json parsing for one file: whether the content
parses as a PackageManifest, as an InstallManifest, and as a generic JSON
value (for which only the version field, as a string, is relevant). -/
structure FileContent where
  asPackageManifest : Option PackageManifest
  asInstallManifest : Option InstallManifest
  asJsonVersion : Option (Option String)
  deriving DecidableEq

/-- The filesystem, embedded as a record of query functions.
meta p = some m means fs::metadata succeeds, with m the modification time in
milliseconds since the epoch (none when modified() or duration_since fails);
meta p = none means fs::metadata fails.  readDir gives entry names in
iteration order, or none on error.  readFile models read_to_string plus the
parse outcomes.  fmtRfc3339 abstracts the chrono RFC-3339 formatter. -/
structure FileSys where
  meta : FsPath → Option (Option Nat)
  isDir : FsPath → Bool
  readDir : FsPath → Option (List String)
  readFile : FsPath → Option FileContent
  fmtRfc3339 : Nat → String

/-- Path.exists, which is metadata success. -/
def FileSys.pathExists (fs : FileSys) (p : FsPath) : Bool := (fs.meta p).isSome

/-- Helper to get modification time of a path in milliseconds; 0 on any
error (installed.rs, get_path_modification_time). -/
def get_path_modification_time (fs : FileSys) (p : FsPath) : Nat :=
  match fs.meta p with
  | some (some t) => t
  | _ => 0

/-- Modification time of an installation directory: metadata of install.json,
else manifest.json, else the directory itself; 0 when modified() fails
(installed.rs, get_install_modification_time). -/
def get_install_modification_time (fs : FileSys) (install_dir : FsPath) : Nat :=
  match fs.meta (pjoin install_dir ("install.json")) with
  | some r => r.getD 0
  | none =>
    match fs.meta (pjoin install_dir ("manifest.json")) with
    | some r => r.getD 0
    | none =>
      match fs.meta install_dir with
      | some r => r.getD 0
      | none => 0

/-- Validates whether a string looks like a version string (installed.rs,
is_valid_version_string). -/
def is_valid_version_string (s : String) : Bool :=
  match s.data with
  | [] => false
  | cs =>
    let hasDigit := cs.any (fun c => c.isDigit)
    let hasInvalid := cs.any (fun c => !(c.isAlphanum || c == '.' || c == '-' || c == '_'))
    let startsBad := match cs.head? with
      | some c => c == '.' || c == '-'
      | none => false
    let endsBad := match cs.getLast? with
      | some c => c == '.' || c == '-'
      | none => false
    hasDigit && !hasInvalid && !startsBad && !endsBad

/-- Searches all bucket directories for a manifest named after the package
(installed.rs, find_package_bucket). -/
def find_package_bucket (fs : FileSys) (scoop_path : FsPath) (package_name : String) :
    Option String :=
  let buckets_path := pjoin scoop_path ("buckets")
  match fs.readDir buckets_path with
  | none => none
  | some buckets =>
    buckets.findSome? (fun bucket_name =>
      if fs.isDir (pjoin buckets_path bucket_name) then
        if fs.pathExists
            (pjoin (pjoin (pjoin buckets_path bucket_name) ("bucket"))
              (package_name ++ ".json")) then
          some bucket_name
        else none
      else none)

/-- The candidate version directories scanned by find_latest_version_dir, in
directory iteration order, each with the modification time the code computes
for it: subdirectories whose name is not a case variant of the current
indirection entry and which contain install.json or manifest.json. -/
def versionCandidates (fs : FileSys) (package_path : FsPath) : List (Nat × FsPath) :=
  match fs.readDir package_path with
  | none => []
  | some entries =>
    entries.filterMap (fun n =>
      let path := pjoin package_path n
      if !(fs.isDir path) then none
      else if n.toLower == "current" then none
      else if !(fs.pathExists (pjoin path ("install.json")))
              && !(fs.pathExists (pjoin path ("manifest.json"))) then none
      else some (get_install_modification_time fs path, path))

/-- Most recently updated version directory for a package when the current
link is missing: stable descending sort on modification time, then the first
element (installed.rs, find_latest_version_dir). -/
def find_latest_version_dir (fs : FileSys) (package_path : FsPath) : Option FsPath :=
  ((List.insertionSort (fun a b : Nat × FsPath => b.1 ≤ a.1)
      (versionCandidates fs package_path)).head?).map Prod.snd

/-- Extracts the package name from the package directory path (installed.rs,
extract_package_name). -/
def extract_package_name (package_path : FsPath) : Except String String :=
  match fileName package_path with
  | some n => Except.ok n
  | none => Except.error ("Invalid package directory name")

/-- Locates the install directory: the current entry when it is a directory,
else the latest version directory, else an error (installed.rs,
locate_install_dir). -/
def locate_install_dir (fs : FileSys) (package_path : FsPath) : Except String FsPath :=
  match extract_package_name package_path with
  | Except.error e => Except.error e
  | Except.ok package_name =>
    if fs.isDir (pjoin package_path ("current")) then
      Except.ok (pjoin package_path ("current"))
    else
      match find_latest_version_dir fs package_path with
      | some fallback_dir => Except.ok fallback_dir
      | none =>
        Except.error ("current directory not found for " ++ package_name
          ++ " and no version directories available")

/-- Fingerprint over the app directories (installed.rs,
compute_apps_fingerprint). -/
def compute_apps_fingerprint (fs : FileSys) (app_dirs : List FsPath) : String :=
  let entries := app_dirs.filterMap (fun path =>
    (fileName path).map (fun name =>
      let modified_stamp :=
        match locate_install_dir fs path with
        | Except.ok install_dir => get_install_modification_time fs install_dir
        | Except.error _ => get_path_modification_time fs path
      name.toLower ++ ":" ++ toString modified_stamp))
  let sorted_entries := List.insertionSort (fun a b : String => a ≤ b) entries
  toString app_dirs.length ++ "|" ++ String.intercalate (";") sorted_entries

/-- Loads manifest.json and install.json; a missing file is synthesized, a
read or parse failure is a hard error (installed.rs,
load_manifests_with_fallback). -/
def load_manifests_with_fallback (fs : FileSys) (install_root : FsPath)
    (package_name : String) : Except String (PackageManifest × InstallManifest) :=
  let manifest_path := pjoin install_root ("manifest.json")
  let manifest_step : Except String PackageManifest :=
    if fs.pathExists manifest_path then
      match fs.readFile manifest_path with
      | none => Except.error ("Failed to read manifest.json for " ++ package_name)
      | some content =>
        match content.asPackageManifest with
        | none => Except.error ("Failed to parse manifest.json for " ++ package_name)
        | some m => Except.ok m
    else
      Except.ok { version := "unknown", description := some ("Package: " ++ package_name) }
  match manifest_step with
  | Except.error e => Except.error e
  | Except.ok manifest =>
    let install_manifest_path := pjoin install_root ("install.json")
    let install_step : Except String InstallManifest :=
      if fs.pathExists install_manifest_path then
        match fs.readFile install_manifest_path with
        | none => Except.error ("Failed to read install.json for " ++ package_name)
        | some content =>
          match content.asInstallManifest with
          | none => Except.error ("Failed to parse install.json for " ++ package_name)
          | some im => Except.ok im
      else
        Except.ok { bucket := none }
    match install_step with
    | Except.error e => Except.error e
    | Except.ok install_manifest => Except.ok (manifest, install_manifest)

/-- Characters after the last dot of a character list, none when it has no
dot. -/
def afterLastDot : List Char → Option (List Char)
  | [] => none
  | c :: cs =>
    match afterLastDot cs with
    | some suffix => some suffix
    | none => if c == '.' then some cs else none

/-- Rust Path.extension on a file name: the suffix after the last dot that
is not the leading character, none when there is no such dot. -/
def rustExtension (name : String) : Option String :=
  match name.data with
  | [] => none
  | _ :: rest =>
    match afterLastDot rest with
    | some suffix => some (String.mk suffix)
    | none => none

/-- Extracts version information from the directory name or from any JSON
file in the install root (installed.rs, extract_version_from_directory). -/
def extract_version_from_directory (fs : FileSys) (install_root : FsPath) :
    Option String :=
  let from_dir_name : Option String :=
    match fileName install_root with
    | some dir_name => if is_valid_version_string dir_name then some dir_name else none
    | none => none
  match from_dir_name with
  | some v => some v
  | none =>
    match fs.readDir install_root with
    | none => none
    | some entries =>
      entries.findSome? (fun n =>
        if rustExtension n == some ("json") then
          match fs.readFile (pjoin install_root n) with
          | none => none
          | some content =>
            match content.asJsonVersion with
            | none => none
            | some vopt =>
              match vopt with
              | some v => if v ≠ "" then some v else none
              | none => none
        else none)

/-- Loads package metadata, falling back to degraded records on hard error;
never fails (installed.rs, load_package_info). -/
def load_package_info (fs : FileSys) (install_root : FsPath) (package_name : String) :
    Except String (PackageManifest × InstallManifest) :=
  match load_manifests_with_fallback fs install_root package_name with
  | Except.ok result => Except.ok result
  | Except.error _ =>
    let version := (extract_version_from_directory fs install_root).getD ("unknown")
    let description := some ("Package: " ++ package_name ++ " (Custom installation)")
    Except.ok ({ version := version, description := description }, { bucket := none })

/-- Determines the bucket for a package (installed.rs, determine_bucket). -/
def determine_bucket (install_manifest : InstallManifest) (fs : FileSys)
    (scoop_path : FsPath) (package_name : String) : String :=
  match install_manifest.bucket with
  | some bucket_name => bucket_name
  | none =>
    match find_package_bucket fs scoop_path package_name with
    | some found_bucket => found_bucket
    | none => "Custom"

/-- Install or update time of the install root, RFC-3339 formatted, empty on
error (installed.rs, get_install_time). -/
def get_install_time (fs : FileSys) (install_root : FsPath) : String :=
  match fs.meta install_root with
  | some (some t) => fs.fmtRfc3339 t
  | _ => ""

/-- Builds a ScoopPackage from the collected data (installed.rs,
build_scoop_package). -/
def build_scoop_package (package_name : String) (manifest : PackageManifest)
    (bucket : String) (updated_time : String) (has_version_dirs : Bool) : ScoopPackage :=
  let is_versioned_install := if bucket == "Custom" then has_version_dirs else false
  { name := package_name
    version := manifest.version
    source := bucket
    updated := updated_time
    is_installed := true
    info := manifest.description.getD ("")
    is_versioned_install := is_versioned_install }

/-- Loads the details of a single installed package (installed.rs,
load_package_details). -/
def load_package_details (fs : FileSys) (package_path scoop_path : FsPath) :
    Except String ScoopPackage :=
  match extract_package_name package_path with
  | Except.error e => Except.error e
  | Except.ok package_name =>
    let has_version_dirs :=
      match fs.readDir package_path with
      | none => false
      | some entries =>
        entries.any (fun n =>
          fs.isDir (pjoin package_path n) && !(n == "current")
            && is_valid_version_string n)
    match locate_install_dir fs package_path with
    | Except.error e => Except.error e
    | Except.ok install_root =>
      match load_package_info fs install_root package_name with
      | Except.error e => Except.error e
      | Except.ok (manifest, install_manifest) =>
        let bucket := determine_bucket install_manifest fs scoop_path package_name
        let updated_time := get_install_time fs install_root
        Except.ok (build_scoop_package package_name manifest bucket updated_time
          has_version_dirs)

/-- Cache entry for the installed package list (crate state module). -/
structure InstalledPackagesCache where
  packages : List ScoopPackage
  fingerprint : String
  deriving DecidableEq

/-- Cache entry for the per-package version lists (crate state module). -/
structure PackageVersionsCache where
  fingerprint : String
  versions_map : List (String × List String)
  deriving DecidableEq

/-- Modelled from the spec: AppState (the crate state module is absent from
the provided sources).  It holds the resolved root path, the two caches, and
the debounce clock, which the spec describes as the time of the previous
refresh. -/
structure AppState where
  scoop_path : FsPath
  installed_packages : Option InstalledPackagesCache
  package_versions : Option PackageVersionsCache
  last_refresh_ms : Option Nat
  deriving DecidableEq

/-- Modelled from the spec: should_debounce_refresh (state module absent):
true when less than the fixed one second cooldown has elapsed since the
previous refresh. -/
def should_debounce_refresh (now : Nat) (st : AppState) : Bool :=
  match st.last_refresh_ms with
  | none => false
  | some t => now < t + 1000

/-- Modelled from the spec: update_refresh_time (state module absent): sets
the debounce clock to the present instant. -/
def update_refresh_time (now : Nat) (st : AppState) : AppState :=
  { st with last_refresh_ms := some now }

/-- Invalidates the package-list cache and the versions cache together
(installed.rs, invalidate_installed_cache). -/
def invalidate_installed_cache (st : AppState) : AppState :=
  { st with installed_packages := none, package_versions := none }

/-- Re-resolves the root path; on a change, stores the new path and clears
the installed-packages cache (installed.rs, refresh_scoop_path_if_needed).
The external resolver resolve_scoop_root lives in the crate utils module,
absent from the provided sources, so its outcome is a parameter. -/
def refresh_scoop_path_if_needed (resolver : Except String FsPath) (st : AppState) :
    Option FsPath × AppState :=
  match resolver with
  | Except.ok new_path =>
    if st.scoop_path ≠ new_path then
      (some new_path, { st with scoop_path := new_path, installed_packages := none })
    else (some st.scoop_path, st)
  | Except.error _ => (none, st)

/-- Finds the apps directory, refreshing the root path when it is missing
(installed.rs, ensure_apps_path). -/
def ensure_apps_path (fs : FileSys) (resolver : Except String FsPath) (st : AppState) :
    Option FsPath × AppState :=
  let apps_path := pjoin st.scoop_path ("apps")
  if fs.isDir apps_path then (some apps_path, st)
  else
    match refresh_scoop_path_if_needed resolver st with
    | (some updated_path, st1) =>
      let apps_path1 := pjoin updated_path ("apps")
      if fs.isDir apps_path1 then (some apps_path1, st1) else (none, st1)
    | (none, st1) =>
      if fs.isDir apps_path then (some apps_path, st1) else (none, st1)

/-- Cache lookup under the fingerprint (installed.rs, check_cache). -/
def check_cache (st : AppState) (fingerprint : String) : Option (List ScoopPackage) :=
  match st.installed_packages with
  | some cache => if cache.fingerprint == fingerprint then some cache.packages else none
  | none => none

/-- Stores the scanned list and its fingerprint (installed.rs, update_cache). -/
def update_cache (st : AppState) (packages : List ScoopPackage) (fingerprint : String) :
    AppState :=
  { st with installed_packages := some { packages := packages, fingerprint := fingerprint } }

/-- Rebuilds the versions cache from the scanned packages, sharing the same
fingerprint (installed.rs, update_package_versions_cache). -/
def update_package_versions_cache (fs : FileSys) (st : AppState)
    (packages : List ScoopPackage) (fingerprint : String) : AppState :=
  let versions_map := packages.filterMap (fun pkg =>
    if pkg.is_versioned_install then
      let package_path := pjoin (pjoin st.scoop_path ("apps")) pkg.name
      match fs.readDir package_path with
      | some entries =>
        let version_dirs := entries.filter (fun n =>
          fs.isDir (pjoin package_path n) && !(n == "current")
            && is_valid_version_string n)
        if version_dirs ≠ [] then some (pkg.name, version_dirs) else none
      | none => none
    else none)
  { st with package_versions := some ⟨fingerprint, versions_map⟩ }

/-- The internal scan shared by the warm-up and refresh entry points
(installed.rs, scan_installed_packages_internal).  The is_warmup flag only
selects the log prefix in the source. -/
def scan_installed_packages_internal (fs : FileSys) (resolver : Except String FsPath)
    (st : AppState) (is_warmup : Bool) : Except String (List ScoopPackage) × AppState :=
  match ensure_apps_path fs resolver st with
  | (none, st1) => (Except.ok [], st1)
  | (some apps_path, st1) =>
    match fs.readDir apps_path with
    | none => (Except.error ("Failed to read apps directory"), st1)
    | some names =>
      let app_dirs := (names.map (pjoin apps_path)).filter fs.isDir
      let fingerprint := compute_apps_fingerprint fs app_dirs
      let scoop_path := st1.scoop_path
      match check_cache st1 fingerprint with
      | some cached => (Except.ok cached, st1)
      | none =>
        let packages := app_dirs.filterMap (fun path =>
          (load_package_details fs path scoop_path).toOption)
        let st2 := update_cache st1 packages fingerprint
        let st3 := update_package_versions_cache fs st2 packages fingerprint
        (Except.ok packages, st3)

/-- The user command for the full list (installed.rs,
get_installed_packages_full). -/
def get_installed_packages_full (fs : FileSys) (resolver : Except String FsPath)
    (st : AppState) : Except String (List ScoopPackage) × AppState :=
  scan_installed_packages_internal fs resolver st false

/-- The warm-up entry point invokes the same internal scan with the warm-up
flag (per the source, cold-start code calls scan_installed_packages_internal
with is_warmup set). -/
def warmup_installed_packages (fs : FileSys) (resolver : Except String FsPath)
    (st : AppState) : Except String (List ScoopPackage) × AppState :=
  scan_installed_packages_internal fs resolver st true

/-- Forced refresh with debounce (installed.rs, refresh_installed_packages). -/
def refresh_installed_packages (fs : FileSys) (resolver : Except String FsPath)
    (now : Nat) (st : AppState) : Except String (List ScoopPackage) × AppState :=
  let core := fun (st0 : AppState) =>
    scan_installed_packages_internal fs resolver
      (invalidate_installed_cache (update_refresh_time now st0)) false
  if should_debounce_refresh now st then
    match st.installed_packages with
    | some cache => (Except.ok cache.packages, st)
    | none => core st
  else core st

/-! Spec-side definitions.  Each follows the words of a claim (or of the
amended claim) and is compared with the embedding of the source. -/

/-- Per-directory stamp of the fingerprint, following the words of claim C3:
the lowercased directory basename, a colon, and the install root
modification time when an install root is resolvable, else the package
directory own modification time. -/
def perDirectoryStamp (fs : FileSys) (d : FsPath) : Option String :=
  (fileName d).map (fun base =>
    base.toLower ++ ":" ++ toString (
      match locate_install_dir fs d with
      | Except.ok install_root => get_install_modification_time fs install_root
      | Except.error _ => get_path_modification_time fs d))

/-- Fingerprint as described by claim C3: the count, a bar separator, and
the lexicographically sorted stamps joined by semicolons. -/
def fingerprintSpec (fs : FileSys) (dirs : List FsPath) : String :=
  toString dirs.length ++ "|" ++
    String.intercalate (";")
      (List.insertionSort (fun a b : String => a ≤ b) (dirs.filterMap (perDirectoryStamp fs)))

/-- Condition of claim C6: the package directory has at least one
subdirectory, other than the indirection entry, whose name is recognized as
a version string. -/
def hasVersionSubdirSpec (fs : FileSys) (p : FsPath) : Bool :=
  ((fs.readDir p).getD []).any (fun n =>
    fs.isDir (pjoin p n) && !(n == "current") && is_valid_version_string n)

/-- Bucket search as described by claim C7: the first bucket directory in
filesystem iteration order containing a file bucket/package.json. -/
def firstBucketSpec (fs : FileSys) (scoop_path : FsPath) (package_name : String) :
    Option String :=
  match fs.readDir (pjoin scoop_path ("buckets")) with
  | none => none
  | some entries =>
    entries.find? (fun b =>
      fs.isDir (pjoin (pjoin scoop_path ("buckets")) b) &&
        fs.pathExists
          (pjoin (pjoin (pjoin (pjoin scoop_path ("buckets")) b) ("bucket"))
            (package_name ++ ".json")))

/-- Version recovered from the first JSON file in the install root that
contains a non-empty version field, per the words of claim C5. -/
def jsonVersionScan (fs : FileSys) (install_root : FsPath) : Option String :=
  match fs.readDir install_root with
  | none => none
  | some entries =>
    entries.findSome? (fun n =>
      if rustExtension n == some ("json") then
        match fs.readFile (pjoin install_root n) with
        | none => none
        | some content =>
          match content.asJsonVersion with
          | none => none
          | some vopt =>
            match vopt with
            | some v => if v ≠ "" then some v else none
            | none => none
      else none)

/-- Second-chance version exactly as claim C5 words it: the first JSON file
with a non-empty version field, else unknown. -/
def claimSecondChanceVersion (fs : FileSys) (install_root : FsPath) : String :=
  (jsonVersionScan fs install_root).getD ("unknown")

/-- Second-chance version as amended: the install root directory name when
it is recognized as a version string, else the first JSON file with a
non-empty version field, else unknown. -/
def amendedSecondChanceVersion (fs : FileSys) (install_root : FsPath) : String :=
  match fileName install_root with
  | some dir_name =>
    if is_valid_version_string dir_name then dir_name
    else (jsonVersionScan fs install_root).getD ("unknown")
  | none => (jsonVersionScan fs install_root).getD ("unknown")

/-- Manifest step per claim C5: read and parse the manifest descriptor; a
missing file synthesizes a minimal manifest; a read or parse failure is a
hard error, rendered here as none. -/
def manifestStepSpec (fs : FileSys) (install_root : FsPath) (package_name : String) :
    Option PackageManifest :=
  if fs.pathExists (pjoin install_root ("manifest.json")) then
    match fs.readFile (pjoin install_root ("manifest.json")) with
    | none => none
    | some content => content.asPackageManifest
  else some { version := "unknown", description := some ("Package: " ++ package_name) }

/-- Install step per claim C5: read and parse the install descriptor; a
missing file synthesizes a bucketless record; a failure is none. -/
def installStepSpec (fs : FileSys) (install_root : FsPath) : Option InstallManifest :=
  if fs.pathExists (pjoin install_root ("install.json")) then
    match fs.readFile (pjoin install_root ("install.json")) with
    | none => none
    | some content => content.asInstallManifest
  else some { bucket := none }

/-- Manifest resolution exactly as claim C5 states it. -/
def manifestResolutionClaim (fs : FileSys) (install_root : FsPath)
    (package_name : String) : PackageManifest × InstallManifest :=
  match manifestStepSpec fs install_root package_name, installStepSpec fs install_root with
  | some m, some im => (m, im)
  | _, _ =>
    ({ version := claimSecondChanceVersion fs install_root
       description := some ("Package: " ++ package_name ++ " (Custom installation)") },
     { bucket := none })

/-- Manifest resolution as amended: the second chance first tries the
install root directory name as a version string. -/
def manifestResolutionAmended (fs : FileSys) (install_root : FsPath)
    (package_name : String) : PackageManifest × InstallManifest :=
  match manifestStepSpec fs install_root package_name, installStepSpec fs install_root with
  | some m, some im => (m, im)
  | _, _ =>
    ({ version := amendedSecondChanceVersion fs install_root
       description := some ("Package: " ++ package_name ++ " (Custom installation)") },
     { bucket := none })

/-- First element of a list attaining the maximal key, scanning left to
right; used to characterize the stable descending sort of
find_latest_version_dir. -/
def firstMaxBy {α : Type} (k : α → Nat) : List α → Option α
  | [] => none
  | a :: l =>
    match firstMaxBy k l with
    | none => some a
    | some b => if k b ≤ k a then some a else some b

/-! Concrete fixtures for witnesses and counterexamples. -/

/-- A filesystem on which every query fails. -/
def fsTrivial : FileSys :=
  ⟨fun _ => none, fun _ => false, fun _ => none, fun _ => none, fun _ => ""⟩

/-- A state in which both caches hold an entry, for exercising the path
change of refresh_scoop_path_if_needed. -/
def stBothCached : AppState :=
  ⟨["C:", "scoop"], some ⟨[], "0|"⟩, some ⟨"0|", []⟩, none⟩

/-- A fresh state: no cache entries, no previous refresh. -/
def stFresh : AppState := ⟨["C:", "scoop"], none, none, none⟩

/-- Install root for the C5 counterexample: a version-named directory whose
manifest.json exists but fails to parse, and which holds no other JSON. -/
def c5root : FsPath := ["apps", "mypkg", "1.2.3"]

/-- Filesystem for the C5 counterexample. -/
def fsC5 : FileSys where
  meta := fun p =>
    if p == pjoin c5root ("manifest.json") then some (some 5)
    else if p == c5root then some (some 3)
    else none
  isDir := fun p => p == c5root
  readDir := fun p => if p == c5root then some ["manifest.json"] else none
  readFile := fun p =>
    if p == pjoin c5root ("manifest.json") then some ⟨none, none, none⟩ else none
  fmtRfc3339 := fun _ => ""

/-- Filesystem for the C4 witness: a package directory with a current
subdirectory. -/
def fsW4 : FileSys where
  meta := fun _ => none
  isDir := fun p => p == ["apps", "pkg", "current"]
  readDir := fun _ => none
  readFile := fun _ => none
  fmtRfc3339 := fun _ => ""

/-- Filesystem for the C6 witness: a package with a current directory, no
descriptors, and a bucket directory that carries its manifest. -/
def fsW6 : FileSys where
  meta := fun p =>
    if p == ["s", "apps", "tool7", "current"] then some (some 42)
    else if p == ["s", "buckets", "main", "bucket", "tool7.json"] then some (some 1)
    else none
  isDir := fun p =>
    p == ["s", "apps", "tool7", "current"] || p == ["s", "buckets", "main"]
      || p == ["s", "apps", "tool7"]
  readDir := fun p =>
    if p == ["s", "apps", "tool7"] then some ["current"]
    else if p == ["s", "buckets"] then some ["main"]
    else none
  readFile := fun _ => none
  fmtRfc3339 := fun n => toString n

/-- Package record produced by the scan on fsW6. -/
def pkgW6 : ScoopPackage :=
  ⟨"tool7", "unknown", "main", "42", true, "Package: tool7", false⟩

/-- Cache entry for the C8 witness. -/
def cW8 : InstalledPackagesCache := ⟨[pkgW6], "1|tool7:42"⟩

/-- State for the C8 witness: both caches populated, last refresh at 0 ms. -/
def stW8 : AppState := ⟨["C:", "scoop"], some cW8, some ⟨"1|tool7:42", []⟩, some 0⟩

/-! Helper lemmas about the stable descending sort. -/

theorem orderedInsert_head {α : Type} (k : α → Nat) (a : α) (l : List α) :
    (List.orderedInsert (fun x y => k y ≤ k x) a l).head? =
      some (match l.head? with
            | none => a
            | some b => if k b ≤ k a then a else b) := by
  cases l with
  | nil => rfl
  | cons b t =>
    by_cases h : k b ≤ k a
    · simp [List.orderedInsert, h]
    · simp [List.orderedInsert, h]

theorem insertionSort_head_eq_firstMaxBy {α : Type} (k : α → Nat) (l : List α) :
    (List.insertionSort (fun x y => k y ≤ k x) l).head? = firstMaxBy k l := by
  induction l with
  | nil => rfl
  | cons a t ih =>
    rw [List.insertionSort, orderedInsert_head, firstMaxBy, ← ih]
    cases h : (List.insertionSort (fun x y => k y ≤ k x) t).head? with
    | none => simp
    | some b => by_cases hk : k b ≤ k a <;> simp [hk]

theorem firstMaxBy_eq_none {α : Type} (k : α → Nat) :
    ∀ (l : List α), firstMaxBy k l = none → l = [] := by
  intro l h
  cases l with
  | nil => rfl
  | cons a t =>
    rw [firstMaxBy] at h
    cases hm : firstMaxBy k t with
    | none => simp only [hm] at h; simp at h
    | some b =>
      simp only [hm] at h
      by_cases hk : k b ≤ k a
      · rw [if_pos hk] at h; simp at h
      · rw [if_neg hk] at h; simp at h

theorem firstMaxBy_mem {α : Type} (k : α → Nat) :
    ∀ (l : List α) (c : α), firstMaxBy k l = some c → c ∈ l := by
  intro l
  induction l with
  | nil => intro c h; simp [firstMaxBy] at h
  | cons a t ih =>
    intro c h
    rw [firstMaxBy] at h
    cases hm : firstMaxBy k t with
    | none =>
      simp only [hm] at h
      simp at h
      simp [h]
    | some b =>
      simp only [hm] at h
      by_cases hk : k b ≤ k a
      · rw [if_pos hk] at h
        injection h with h
        simp [h]
      · rw [if_neg hk] at h
        injection h with h
        rw [← h]
        exact List.mem_cons_of_mem a (ih b hm)

theorem firstMaxBy_max {α : Type} (k : α → Nat) :
    ∀ (l : List α) (c : α), firstMaxBy k l = some c → ∀ x ∈ l, k x ≤ k c := by
  intro l
  induction l with
  | nil => intro c h; simp [firstMaxBy] at h
  | cons a t ih =>
    intro c h x hx
    rw [firstMaxBy] at h
    cases hm : firstMaxBy k t with
    | none =>
      simp only [hm] at h
      simp at h
      have ht : t = [] := firstMaxBy_eq_none k t hm
      subst ht
      simp at hx
      rw [hx, h]
    | some b =>
      simp only [hm] at h
      rcases List.mem_cons.mp hx with hxa | hxt
      · rw [hxa]
        by_cases hk : k b ≤ k a
        · rw [if_pos hk] at h; injection h with h; rw [h]
        · rw [if_neg hk] at h; injection h with h; rw [← h]
          exact Nat.le_of_lt (Nat.lt_of_not_le hk)
      · have hxb : k x ≤ k b := ih b hm x hxt
        by_cases hk : k b ≤ k a
        · rw [if_pos hk] at h; injection h with h; rw [← h]; exact Nat.le_trans hxb hk
        · rw [if_neg hk] at h; injection h with h; rw [← h]; exact hxb

theorem find_agree {α : Type} (p q : α → Bool) :
    ∀ (l : List α), (∀ x ∈ l, p x = q x) → l.find? p = l.find? q := by
  intro l
  induction l with
  | nil => intro _; rfl
  | cons a t ih =>
    intro hag
    have ha : p a = q a := hag a (List.mem_cons_self a t)
    cases hq : q a with
    | true =>
      rw [List.find?_cons_of_pos _ (by rw [ha, hq]), List.find?_cons_of_pos _ hq]
    | false =>
      rw [List.find?_cons_of_neg _ (by simp [ha, hq]), List.find?_cons_of_neg _ (by simp [hq])]
      exact ih (fun x hx => hag x (List.mem_cons_of_mem a hx))

theorem firstMaxBy_eq_find {α : Type} (k : α → Nat) :
    ∀ (l : List α),
      firstMaxBy k l = l.find? (fun c => l.all (fun x => k x ≤ k c)) := by
  intro l
  induction l with
  | nil => rfl
  | cons a t ih =>
    by_cases hall : t.all (fun x => k x ≤ k a) = true
    · have hpa : ((a :: t).all (fun x => k x ≤ k a)) = true := by
        rw [List.all_cons, hall]
        simp
      rw [List.find?_cons]
      simp only [hpa]
      rw [firstMaxBy]
      cases hm : firstMaxBy k t with
      | none => rfl
      | some b =>
        have hb : b ∈ t := firstMaxBy_mem k t b hm
        have hba : k b ≤ k a := by
          have := List.all_eq_true.mp hall b hb
          simpa using this
        simp [hba]
    · obtain ⟨w, hw, hwk⟩ : ∃ w ∈ t, ¬ k w ≤ k a := by
        by_contra hcon
        push_neg at hcon
        refine hall (List.all_eq_true.mpr ?_)
        intro x hx
        simpa using hcon x hx
      have hpa : ((a :: t).all (fun x => k x ≤ k a)) = false := by
        cases hq : ((a :: t).all (fun x => k x ≤ k a)) with
        | false => rfl
        | true =>
          have := List.all_eq_true.mp hq w (List.mem_cons_of_mem a hw)
          exact absurd (by simpa using this) hwk
      rw [List.find?_cons]
      simp only [hpa]
      have hagree : ∀ x ∈ t,
          ((a :: t).all (fun y => k y ≤ k x) : Bool)
            = (t.all (fun y => k y ≤ k x) : Bool) := by
        intro x hx
        rw [List.all_cons]
        cases hq : t.all (fun y => k y ≤ k x) with
        | false => simp
        | true =>
          have hwx : k w ≤ k x := by simpa using List.all_eq_true.mp hq w hw
          have hax : k a ≤ k x := Nat.le_trans (Nat.le_of_lt (Nat.lt_of_not_le hwk)) hwx
          simp [hax]
      rw [find_agree _ _ t hagree, ← ih, firstMaxBy]
      cases hm : firstMaxBy k t with
      | none =>
        have ht : t = [] := firstMaxBy_eq_none k t hm
        subst ht
        simp at hw
      | some b =>
        have hba : ¬ k b ≤ k a := fun hba =>
          hwk (Nat.le_trans (firstMaxBy_max k t b hm w hw) hba)
        simp [hba]

theorem findSome_guard2 {α : Type} (p q : α → Bool) :
    ∀ (l : List α),
      (l.findSome? (fun a => if p a then (if q a then some a else none) else none)) =
        l.find? (fun a => p a && q a) := by
  intro l
  induction l with
  | nil => rfl
  | cons a t ih =>
    rw [List.findSome?_cons]
    cases hp : p a with
    | true =>
      cases hq : q a with
      | true =>
        rw [List.find?_cons_of_pos _ (by simp [hp, hq])]
        simp [hp, hq]
      | false =>
        rw [List.find?_cons_of_neg _ (by simp [hp, hq])]
        simp [hp, hq, ih]
    | false =>
      rw [List.find?_cons_of_neg _ (by simp [hp])]
      simp [hp, ih]

theorem sort_le_strings_perm (l1 l2 : List String) (h : l1.Perm l2) :
    List.insertionSort (fun a b : String => a ≤ b) l1
      = List.insertionSort (fun a b : String => a ≤ b) l2 :=
  List.eq_of_perm_of_sorted
    (((List.perm_insertionSort _ _).trans h).trans (List.perm_insertionSort _ _).symm)
    (List.sorted_insertionSort _ _) (List.sorted_insertionSort _ _)

/-! Claim theorems. -/

/-- Claim C3: the computed fingerprint equals the count of directories, a
bar separator, and the lexicographically sorted per-directory stamps joined
by semicolons, where each stamp is the lowercased basename, a colon, and the
install-root modification time when an install root is resolvable, else the
directory own modification time. -/
theorem compute_apps_fingerprint_spec :
    ∀ (fs : FileSys) (dirs : List FsPath),
      compute_apps_fingerprint fs dirs = fingerprintSpec fs dirs := by
  intro fs dirs
  rfl

/-- Claim C9: the fingerprint is invariant under permutation of the app
directory list, so it does not depend on directory enumeration order. -/
theorem compute_apps_fingerprint_perm :
    ∀ (fs : FileSys) (l1 l2 : List FsPath), l1.Perm l2 →
      compute_apps_fingerprint fs l1 = compute_apps_fingerprint fs l2 := by
  intro fs l1 l2 h
  simp only [compute_apps_fingerprint]
  rw [h.length_eq, sort_le_strings_perm _ _ (h.filterMap _)]

/-- Witness for claim C9 at a concrete permutation. -/
theorem compute_apps_fingerprint_perm_witness :
    ([["a"], ["b"]] : List FsPath).Perm [["b"], ["a"]] ∧
      compute_apps_fingerprint fsTrivial [["a"], ["b"]] =
        compute_apps_fingerprint fsTrivial [["b"], ["a"]] :=
  ⟨List.Perm.swap _ _ _,
   compute_apps_fingerprint_perm fsTrivial [["a"], ["b"]] [["b"], ["a"]]
     (List.Perm.swap _ _ _)⟩

/-- Claim C10: tie-break of the version-directory fallback.  The returned
directory is the first candidate, in directory iteration order, whose
modification time is maximal among all candidates, because the descending
sort is stable and the head of the sorted list is taken. -/
theorem find_latest_version_dir_tiebreak :
    ∀ (fs : FileSys) (p : FsPath),
      find_latest_version_dir fs p =
        ((versionCandidates fs p).find? (fun c =>
          (versionCandidates fs p).all (fun c2 => c2.1 ≤ c.1))).map Prod.snd := by
  intro fs p
  unfold find_latest_version_dir
  rw [insertionSort_head_eq_firstMaxBy Prod.fst, firstMaxBy_eq_find]

/-- Claim C4: install-root resolution.  A current directory is returned when
present; otherwise the candidate with the greatest modification time is
returned; with no candidate, resolution fails and the package is absent from
the scan, its loader returning an error. -/
theorem locate_install_dir_resolution :
    ∀ (fs : FileSys) (p : FsPath) (nm : String), fileName p = some nm →
      (fs.isDir (pjoin p ("current")) = true →
        locate_install_dir fs p = Except.ok (pjoin p ("current"))) ∧
      (fs.isDir (pjoin p ("current")) = false → versionCandidates fs p ≠ [] →
        ∃ c ∈ versionCandidates fs p,
          (∀ c2 ∈ versionCandidates fs p, c2.1 ≤ c.1) ∧
            locate_install_dir fs p = Except.ok c.2) ∧
      (fs.isDir (pjoin p ("current")) = false → versionCandidates fs p = [] →
        ∀ scoop, ∃ e, load_package_details fs p scoop = Except.error e) := by
  intro fs p nm hnm
  have hname : extract_package_name p = Except.ok nm := by
    unfold extract_package_name
    rw [hnm]
  have hfl : find_latest_version_dir fs p
      = (firstMaxBy Prod.fst (versionCandidates fs p)).map Prod.snd := by
    unfold find_latest_version_dir
    rw [insertionSort_head_eq_firstMaxBy Prod.fst]
  refine ⟨?_, ?_, ?_⟩
  · intro hcur
    simp only [locate_install_dir, hname, hcur]
    simp
  · intro hcur hne
    cases hm : firstMaxBy Prod.fst (versionCandidates fs p) with
    | none => exact absurd (firstMaxBy_eq_none _ _ hm) hne
    | some c =>
      refine ⟨c, firstMaxBy_mem _ _ c hm, firstMaxBy_max _ _ c hm, ?_⟩
      simp only [locate_install_dir, hname, hcur]
      rw [hfl, hm]
      simp
  · intro hcur hnil scoop
    have hfl2 : find_latest_version_dir fs p = none := by
      rw [hfl, hnil]
      rfl
    have hloc : locate_install_dir fs p
        = Except.error ("current directory not found for " ++ nm
            ++ " and no version directories available") := by
      simp only [locate_install_dir, hname, hcur]
      rw [hfl2]
      simp
    refine ⟨("current directory not found for " ++ nm
      ++ " and no version directories available"), ?_⟩
    simp only [load_package_details, hname, hloc]

/-- Witness for claim C4 at a package directory holding a current entry. -/
theorem locate_install_dir_resolution_witness :
    fileName ["apps", "pkg"] = some ("pkg") ∧
      fsW4.isDir (pjoin ["apps", "pkg"] ("current")) = true ∧
      locate_install_dir fsW4 ["apps", "pkg"] = Except.ok (pjoin ["apps", "pkg"] ("current")) :=
  ⟨rfl, rfl, (locate_install_dir_resolution fsW4 ["apps", "pkg"] "pkg" rfl).1 rfl⟩

/-- Claim C7: bucket determination uses the install descriptor bucket
verbatim; otherwise the first bucket directory in iteration order whose
bucket subdirectory holds the package manifest; else the sentinel Custom. -/
theorem determine_bucket_spec :
    ∀ (im : InstallManifest) (fs : FileSys) (scoop : FsPath) (nm : String),
      determine_bucket im fs scoop nm =
        match im.bucket with
        | some b => b
        | none => (firstBucketSpec fs scoop nm).getD ("Custom") := by
  intro im fs scoop nm
  obtain ⟨bo⟩ := im
  cases bo with
  | some b => rfl
  | none =>
    have h : find_package_bucket fs scoop nm = firstBucketSpec fs scoop nm := by
      simp only [find_package_bucket, firstBucketSpec]
      cases h2 : fs.readDir (pjoin scoop ("buckets")) with
      | none => rfl
      | some entries =>
        exact findSome_guard2
          (fun b => fs.isDir (pjoin (pjoin scoop ("buckets")) b))
          (fun b => fs.pathExists
            (pjoin (pjoin (pjoin (pjoin scoop ("buckets")) b) ("bucket"))
              (nm ++ ".json"))) entries
    simp only [determine_bucket, h]
    cases firstBucketSpec fs scoop nm <;> rfl

/-- Claim C6: a scanned package is flagged as a versioned install exactly
when its determined source is Custom and its directory has a version-named
subdirectory other than the indirection entry; any other source is never
flagged versioned. -/
theorem versioned_install_flag :
    ∀ (fs : FileSys) (p scoop : FsPath) (pkg : ScoopPackage),
      load_package_details fs p scoop = Except.ok pkg →
      ((pkg.is_versioned_install = true ↔
          (pkg.source = "Custom" ∧ hasVersionSubdirSpec fs p = true)) ∧
        (pkg.source ≠ "Custom" → pkg.is_versioned_install = false)) := by
  intro fs p scoop pkg h
  unfold load_package_details at h
  cases hnm : extract_package_name p with
  | error e => simp only [hnm] at h; exact Except.noConfusion h
  | ok nm =>
    simp only [hnm] at h
    cases hloc : locate_install_dir fs p with
    | error e => simp only [hloc] at h; exact Except.noConfusion h
    | ok root =>
      simp only [hloc] at h
      cases hinfo : load_package_info fs root nm with
      | error e => simp only [hinfo] at h; exact Except.noConfusion h
      | ok pr =>
        obtain ⟨manifest, im⟩ := pr
        simp only [hinfo] at h
        injection h with h
        have hvd : (match fs.readDir p with
            | none => false
            | some entries =>
              entries.any (fun n =>
                fs.isDir (pjoin p n) && !(n == "current")
                  && is_valid_version_string n)) = hasVersionSubdirSpec fs p := by
          unfold hasVersionSubdirSpec
          cases fs.readDir p <;> rfl
        rw [← h]
        simp only [build_scoop_package, hvd]
        by_cases hb : determine_bucket im fs scoop nm = "Custom"
        · rw [hb]
          simp
        · have hb2 : (determine_bucket im fs scoop nm == "Custom") = false := by
            simp [hb]
          simp [hb2, hb]

/-- Witness for claim C6 at a concrete bucket-attributed package. -/
theorem versioned_install_flag_witness :
    load_package_details fsW6 ["s", "apps", "tool7"] ["s"] = Except.ok pkgW6 ∧
      (pkgW6.is_versioned_install = true ↔
        (pkgW6.source = "Custom" ∧ hasVersionSubdirSpec fsW6 ["s", "apps", "tool7"] = true)) :=
  ⟨rfl, (versioned_install_flag fsW6 ["s", "apps", "tool7"] ["s"] pkgW6 rfl).1⟩

theorem extract_version_getD_eq_amended :
    ∀ (fs : FileSys) (root : FsPath),
      (extract_version_from_directory fs root).getD ("unknown")
        = amendedSecondChanceVersion fs root := by
  intro fs root
  simp only [extract_version_from_directory, amendedSecondChanceVersion, jsonVersionScan]
  cases hf : fileName root with
  | none => rfl
  | some d =>
    by_cases hv : is_valid_version_string d = true
    · simp [hv]
    · have hv2 : is_valid_version_string d = false := by
        cases hq : is_valid_version_string d
        · rfl
        · exact absurd hq hv
      simp [hv2]

/-- Counterexample to claim C5: an install root named 1.2.3 whose
manifest.json exists but fails to parse.  The code recovers the version from
the directory name, while the claim predicts the version unknown because no
JSON file with a version field is readable. -/
theorem manifest_resolution_claim_counterexample :
    load_package_info fsC5 c5root ("mypkg")
        = Except.ok ({ version := "1.2.3"
                       description := some ("Package: mypkg (Custom installation)") },
                     { bucket := none }) ∧
      manifestResolutionClaim fsC5 c5root ("mypkg")
        = ({ version := "unknown"
             description := some ("Package: mypkg (Custom installation)") },
           { bucket := none }) ∧
      ("1.2.3" : String) ≠ "unknown" :=
  ⟨rfl, rfl, by decide⟩

theorem lmwf_toOption :
    ∀ (fs : FileSys) (root : FsPath) (nm : String),
      (load_manifests_with_fallback fs root nm).toOption
        = match manifestStepSpec fs root nm, installStepSpec fs root with
          | some m, some im => some (m, im)
          | _, _ => none := by
  intro fs root nm
  simp only [load_manifests_with_fallback, manifestStepSpec, installStepSpec]
  by_cases h1 : fs.pathExists (pjoin root ("manifest.json"))
  · cases h2 : fs.readFile (pjoin root ("manifest.json")) with
    | none => simp [h1, h2, Except.toOption]
    | some content =>
      cases h3 : content.asPackageManifest with
      | none => simp [h1, h2, h3, Except.toOption]
      | some m =>
        by_cases h4 : fs.pathExists (pjoin root ("install.json"))
        · cases h5 : fs.readFile (pjoin root ("install.json")) with
          | none => simp [h1, h2, h3, h4, h5, Except.toOption]
          | some c2 =>
            cases h6 : c2.asInstallManifest with
            | none => simp [h1, h2, h3, h4, h5, h6, Except.toOption]
            | some im => simp [h1, h2, h3, h4, h5, h6, Except.toOption]
        · simp [h1, h2, h3, h4, Except.toOption]
  · by_cases h4 : fs.pathExists (pjoin root ("install.json"))
    · cases h5 : fs.readFile (pjoin root ("install.json")) with
      | none => simp [h1, h4, h5, Except.toOption]
      | some c2 =>
        cases h6 : c2.asInstallManifest with
        | none => simp [h1, h4, h5, h6, Except.toOption]
        | some im => simp [h1, h4, h5, h6, Except.toOption]
    · simp [h1, h4, Except.toOption]

/-- Claim C5 as amended: manifest resolution is total, and when a descriptor
read or parse fails the second chance first tries the install root directory
name as a version string, then the first JSON file with a non-empty version
field, else unknown; a merely absent descriptor is synthesized. -/
theorem load_package_info_amended :
    ∀ (fs : FileSys) (root : FsPath) (nm : String),
      load_package_info fs root nm
        = Except.ok (manifestResolutionAmended fs root nm) := by
  intro fs root nm
  have hv := extract_version_getD_eq_amended fs root
  have hop := lmwf_toOption fs root nm
  cases hl : load_manifests_with_fallback fs root nm with
  | ok r =>
    rw [hl] at hop
    simp only [Except.toOption] at hop
    simp only [load_package_info, hl, manifestResolutionAmended]
    cases hm : manifestStepSpec fs root nm with
    | none => rw [hm] at hop; simp at hop
    | some m =>
      cases hi : installStepSpec fs root with
      | none => rw [hm, hi] at hop; simp at hop
      | some im =>
        rw [hm, hi] at hop
        simp only [Option.some.injEq] at hop
        rw [hop]
  | error e =>
    rw [hl] at hop
    simp only [Except.toOption] at hop
    simp only [load_package_info, hl, manifestResolutionAmended]
    cases hm : manifestStepSpec fs root nm with
    | none =>
      rw [hm] at hop
      simp [hv]
    | some m =>
      cases hi : installStepSpec fs root with
      | none =>
        rw [hm, hi] at hop
        simp [hv]
      | some im => rw [hm, hi] at hop; simp at hop

/-- Witness for the amended claim C5 at the counterexample filesystem. -/
theorem load_package_info_amended_witness :
    load_package_info fsC5 c5root ("mypkg")
      = Except.ok (manifestResolutionAmended fsC5 c5root ("mypkg")) :=
  load_package_info_amended fsC5 c5root ("mypkg")

/-- Claim C1, evaluated at the failing input: with both caches populated, a
runtime change of the resolved root path clears only the installed-packages
cache and leaves the versions cache holding its stale entry, while the
explicit invalidation call clears both together. -/
theorem path_change_leaves_versions_cache :
    (refresh_scoop_path_if_needed (Except.ok ["D:", "scoop2"]) stBothCached).2.installed_packages
        = none ∧
      (refresh_scoop_path_if_needed (Except.ok ["D:", "scoop2"]) stBothCached).2.package_versions
        = some ⟨"0|", []⟩ ∧
      (invalidate_installed_cache stBothCached).installed_packages = none ∧
      (invalidate_installed_cache stBothCached).package_versions = none := by
  refine ⟨rfl, rfl, rfl, rfl⟩

/-- Counterexample to claim C2: with no previous refresh and an apps
directory that cannot be found (and a failing path resolver), the explicit
user-triggered refresh returns the empty list, not an error. -/
theorem refresh_missing_apps_counterexample :
    fsTrivial.isDir (pjoin stFresh.scoop_path ("apps")) = false ∧
      should_debounce_refresh 0 stFresh = false ∧
      (refresh_installed_packages fsTrivial (Except.error ("resolver failed")) 0 stFresh).1
        = Except.ok [] := by
  refine ⟨rfl, rfl, rfl⟩

/-- Claim C2 as amended: when the apps directory cannot be found the scan
returns an empty list for the warm-up and the refresh entry point alike, and
when the apps directory is found but cannot be read the scan returns an
error, again for both entry points. -/
theorem scan_missing_apps_amended :
    ∀ (fs : FileSys) (resolver : Except String FsPath) (st : AppState) (w : Bool),
      ((ensure_apps_path fs resolver st).1 = none →
        (scan_installed_packages_internal fs resolver st w).1 = Except.ok []) ∧
      (∀ apps, (ensure_apps_path fs resolver st).1 = some apps →
        fs.readDir apps = none →
        (scan_installed_packages_internal fs resolver st w).1
          = Except.error ("Failed to read apps directory")) := by
  intro fs resolver st w
  constructor
  · intro h
    unfold scan_installed_packages_internal
    cases he : ensure_apps_path fs resolver st with
    | mk o st1 =>
      rw [he] at h
      simp at h
      rw [h]
  · intro apps h hrd
    unfold scan_installed_packages_internal
    cases he : ensure_apps_path fs resolver st with
    | mk o st1 =>
      rw [he] at h
      simp at h
      rw [h]
      simp [hrd]

/-- Witness for the amended claim C2: the missing-directory branch at a
concrete input. -/
theorem scan_missing_apps_amended_witness :
    (ensure_apps_path fsTrivial (Except.error ("x")) stFresh).1 = none ∧
      (scan_installed_packages_internal fsTrivial (Except.error ("x")) stFresh false).1
        = Except.ok [] :=
  ⟨rfl, (scan_missing_apps_amended fsTrivial (Except.error ("x")) stFresh false).1 rfl⟩

theorem refresh_scoop_last_refresh :
    ∀ (resolver : Except String FsPath) (s : AppState),
      (refresh_scoop_path_if_needed resolver s).2.last_refresh_ms = s.last_refresh_ms := by
  intro resolver s
  unfold refresh_scoop_path_if_needed
  cases resolver with
  | ok np =>
    by_cases h : s.scoop_path ≠ np
    · simp [h]
    · simp [h]
  | error e => rfl

theorem ensure_apps_path_last_refresh :
    ∀ (fs : FileSys) (resolver : Except String FsPath) (s : AppState),
      (ensure_apps_path fs resolver s).2.last_refresh_ms = s.last_refresh_ms := by
  intro fs resolver s
  unfold ensure_apps_path
  cases hd : fs.isDir (pjoin s.scoop_path ("apps")) with
  | true => simp [hd]
  | false =>
    simp only [hd]
    cases hr : refresh_scoop_path_if_needed resolver s with
    | mk o st1 =>
      have h := refresh_scoop_last_refresh resolver s
      rw [hr] at h
      have h2 : st1.last_refresh_ms = s.last_refresh_ms := h
      cases o with
      | some u =>
        by_cases hu : fs.isDir (pjoin u ("apps")) = true
        · simp [hu, h2]
        · simp [hu, h2]
      | none => simpa using h2

/-- Claim C8: a refresh arriving under the one-second cooldown with a cached
list returns that cached list with the state untouched, hence without
invalidating either cache, without updating the debounce clock, and (the
filesystem and resolver being arbitrary) without filesystem work; and the
internal scan used by warm-up and passive reads never updates the debounce
clock. -/
theorem refresh_debounce_behavior :
    (∀ (fs : FileSys) (resolver : Except String FsPath) (now : Nat) (st : AppState)
        (cache : InstalledPackagesCache),
      should_debounce_refresh now st = true →
      st.installed_packages = some cache →
      refresh_installed_packages fs resolver now st = (Except.ok cache.packages, st)) ∧
    (∀ (fs : FileSys) (resolver : Except String FsPath) (st : AppState) (w : Bool),
      (scan_installed_packages_internal fs resolver st w).2.last_refresh_ms
        = st.last_refresh_ms) := by
  constructor
  · intro fs resolver now st cache hdb hc
    simp only [refresh_installed_packages, hdb, hc]
    simp
  · intro fs resolver st w
    unfold scan_installed_packages_internal
    split
    next st1 heq =>
      have h := ensure_apps_path_last_refresh fs resolver st
      rw [heq] at h
      exact h
    next apps st1 heq =>
      have h := ensure_apps_path_last_refresh fs resolver st
      rw [heq] at h
      cases hrd : fs.readDir apps with
      | none => simpa using h
      | some names =>
        split
        · exact h
        · dsimp only
          split
          · exact h
          · exact h

/-- Witness for claim C8 at a concrete debounced refresh. -/
theorem refresh_debounce_behavior_witness :
    should_debounce_refresh 500 stW8 = true ∧
      stW8.installed_packages = some cW8 ∧
      refresh_installed_packages fsTrivial (Except.error ("e")) 500 stW8
        = (Except.ok cW8.packages, stW8) :=
  ⟨rfl, rfl,
   refresh_debounce_behavior.1 fsTrivial (Except.error ("e")) 500 stW8 cW8 rfl rfl⟩

end Pailer
